import Mathlib

/-! Shallow embedding of the numerical kernel of `direct_conv.ipynb`
(the direct-gradient patch-accumulation model) and verification of the
specification claims about it.

Arrays are modelled with exact rationals; numpy basic slicing (clipping and
negative-index wrapping), in-place broadcast accumulation, and the two einsum
contractions used by the source are modelled explicitly.
-/

set_option autoImplicit false

namespace DirectConv

/-- Two-dimensional numpy-style array: shape `(N, M)` with entries given by a
total function (only indices below the shape are meaningful). -/
structure Arr2 where
  N : ℕ
  M : ℕ
  val : ℕ → ℕ → ℚ

/-- Three-dimensional numpy-style array: shape `(B, N, M)`, indexed by
(channel, row, column). -/
structure Arr3 where
  B : ℕ
  N : ℕ
  M : ℕ
  val : ℕ → ℕ → ℕ → ℚ

/-- Python slice-bound normalisation for one bound of `slice(a, b)` on an axis
of length `n`: negative bounds wrap by `n` and are clamped below by `0`,
non-negative bounds are clamped above by `n`.  This is exactly
`slice.indices` in CPython, which numpy basic slicing follows. -/
def pyIdx (n : ℕ) (a : ℤ) : ℕ :=
  if a < 0 then ((n : ℤ) + a).toNat else min a.toNat n

/-- Start index of the normalised slice `slice(a, _)` on an axis of length `n`. -/
def sliceStart (n : ℕ) (a : ℤ) : ℕ := pyIdx n a

/-- Length of the normalised slice `slice(a, b)` on an axis of length `n`. -/
def sliceLen (n : ℕ) (a b : ℤ) : ℕ := pyIdx n b - pyIdx n a

/-- A box, as in the source: the raw bounds of the pair
`(slice(y0, y1), slice(x0, x1))` before normalisation. -/
structure Box where
  y0 : ℤ
  y1 : ℤ
  x0 : ℤ
  x1 : ℤ
  deriving DecidableEq

/-- The box `(slice(y-1, y+2), slice(x-1, x+2))` computed from a center, as in
`get_component_model` and `grad_get_component_model`. -/
def boxOf (center : ℤ × ℤ) : Box :=
  ⟨center.1 - 1, center.1 + 2, center.2 - 1, center.2 + 2⟩

/-- The outer product `sed[:, None, None] * morph[None, :, :]`:
shape `(len sed, morph.N, morph.M)`. -/
def outerPatch (sed : List ℚ) (morph : Arr2) : Arr3 :=
  ⟨sed.length, morph.N, morph.M, fun c i j => sed.getD c 0 * morph.val i j⟩

/-- Source `get_component_model(sed, morph, center)`: the separable patch
together with its box. -/
def get_component_model (sed : List ℚ) (morph : Arr2) (center : ℤ × ℤ) :
    Arr3 × Box :=
  (outerPatch sed morph, boxOf center)

/-- Numpy broadcast compatibility of a source dimension `s` against a target
dimension `t`: the source dimension must equal the target or be `1`. -/
def bCompat (s t : ℕ) : Bool := s == t || s == 1

/-- Index into a possibly broadcast dimension of size `s`: a size-one
dimension is always read at `0`. -/
def bIdx (s k : ℕ) : ℕ := if s = 1 then 0 else k

/-- Numpy in-place accumulation `dest[:, slice(b.y0,b.y1), slice(b.x0,b.x1)] += src`
with basic slicing (clipping and negative wrapping) on the two spatial axes and
broadcasting of `src` to the selected target shape; `none` models the
broadcast-shape `ValueError`. -/
def addSlice (dest : Arr3) (b : Box) (src : Arr3) : Option Arr3 :=
  let r0 := sliceStart dest.N b.y0
  let rl := sliceLen dest.N b.y0 b.y1
  let c0 := sliceStart dest.M b.x0
  let cl := sliceLen dest.M b.x0 b.x1
  if bCompat src.B dest.B && bCompat src.N rl && bCompat src.M cl then
    some ⟨dest.B, dest.N, dest.M, fun c i j =>
      dest.val c i j +
        if c < dest.B ∧ r0 ≤ i ∧ i < r0 + rl ∧ c0 ≤ j ∧ j < c0 + cl then
          src.val (bIdx src.B c) (bIdx src.N (i - r0)) (bIdx src.M (j - c0))
        else 0⟩
  else none

/-- The zero array `np.zeros(shape)`. -/
def zeros (shape : ℕ × ℕ × ℕ) : Arr3 :=
  ⟨shape.1, shape.2.1, shape.2.2, fun _ _ _ => 0⟩

/-- Loop of source `get_full_model`: fold the per-component patches into the
accumulating model.  The second component threads the loop variable `box`:
the source builds a list `boxes` but returns the bare loop variable `box`, so
after the loop only the LAST box is available, and when the loop body never
runs the `return` raises `UnboundLocalError` (modelled by `none` via the
`Option Box` accumulator).  Unequal list lengths raise `IndexError`, also
modelled by `none`. -/
def render_go (model : Arr3) (lastBox : Option Box) :
    List (List ℚ) → List Arr2 → List (ℤ × ℤ) → Option (Arr3 × Box)
  | [], _, _ => lastBox.map (fun b => (model, b))
  | sed :: seds, morph :: morphs, center :: centers =>
    match addSlice model (get_component_model sed morph center).2
        (get_component_model sed morph center).1 with
    | none => none
    | some m => render_go m (some (boxOf center)) seds morphs centers
  | _ :: _, _, _ => none

/-- Source `get_full_model(seds, morphs, centers, shape)`: accumulate all
component patches into a zero image; returns the model and the final value of
the loop variable `box`. -/
def get_full_model (seds : List (List ℚ)) (morphs : List Arr2)
    (centers : List (ℤ × ℤ)) (shape : ℕ × ℕ × ℕ) : Option (Arr3 × Box) :=
  render_go (zeros shape) none seds morphs centers

/-- Basic slicing `a[:, slice(b.y0,b.y1), slice(b.x0,b.x1)]` of a
three-dimensional array: the channel axis is kept whole, the two spatial axes
are restricted to the normalised slices. -/
def sliceArr (a : Arr3) (b : Box) : Arr3 :=
  ⟨a.B, sliceLen a.N b.y0 b.y1, sliceLen a.M b.x0 b.x1,
    fun c i j => a.val c (sliceStart a.N b.y0 + i) (sliceStart a.M b.x0 + j)⟩

/-- Contraction `np.einsum("...jk,jk", a, w)`: sum the two trailing spatial
axes of `a` against `w`, one output entry per channel of `a`; dimensions
carrying the same label must agree or be `1` (einsum size-one broadcasting),
otherwise numpy raises, modelled by `none`. -/
def einsum_jk (a : Arr3) (w : Arr2) : Option (List ℚ) :=
  if (bCompat a.N w.N || bCompat w.N a.N) && (bCompat a.M w.M || bCompat w.M a.M) then
    some ((List.range a.B).map (fun c =>
      ∑ i ∈ Finset.range (max a.N w.N), ∑ j ∈ Finset.range (max a.M w.M),
        a.val c (bIdx a.N i) (bIdx a.M j) * w.val (bIdx w.N i) (bIdx w.M j)))
  else none

/-- Contraction `np.einsum("i,i...", s, a)`: sum the channel axis of `a`
against the vector `s`, leaving the two spatial axes; the shared label must
agree or be `1`, otherwise `none`. -/
def einsum_i (s : List ℚ) (a : Arr3) : Option Arr2 :=
  if bCompat s.length a.B || bCompat a.B s.length then
    some ⟨a.N, a.M, fun i j =>
      ∑ c ∈ Finset.range (max s.length a.B),
        s.getD (bIdx s.length c) 0 * a.val (bIdx a.B c) i j⟩
  else none

/-- Source `grad_get_component_model(chain_grad, model, sed, morph, center)`:
restrict the upstream gradient to the box of the component, then contract it
against the morphology (sed gradient) and against the sed (morph gradient).
The `model` argument is accepted and never used, exactly as in the source. -/
def grad_get_component_model (chain_grad : Arr3) (model : Arr3) (sed : List ℚ)
    (morph : Arr2) (center : ℤ × ℤ) : Option (List ℚ × Arr2) :=
  let b := boxOf center
  let cg := sliceArr chain_grad b
  match einsum_jk cg morph with
  | none => none
  | some sed_grad =>
    match einsum_i sed cg with
    | none => none
    | some morph_grad => some (sed_grad, morph_grad)

/-- Loop of source `grad_get_full_model`: the loop is driven by
`range(len(centers))`, so exhausting `centers` ends the loop and a shorter
`seds` or `morphs` list raises `IndexError` (`none`). -/
def grad_go (chain_grad : Arr3) (model : Arr3) :
    List (ℤ × ℤ) → List (List ℚ) → List Arr2 → Option (List (List ℚ) × List Arr2)
  | [], _, _ => some ([], [])
  | center :: centers, sed :: seds, morph :: morphs =>
    match grad_get_component_model chain_grad model sed morph center with
    | none => none
    | some g =>
      match grad_go chain_grad model centers seds morphs with
      | none => none
      | some rest => some (g.1 :: rest.1, g.2 :: rest.2)
  | _ :: _, _, _ => none

/-- Source `grad_get_full_model(chain_grad, model, centers, seds, morphs)`:
collect the per-component gradients. -/
def grad_get_full_model (chain_grad : Arr3) (model : Arr3)
    (centers : List (ℤ × ℤ)) (seds : List (List ℚ)) (morphs : List Arr2) :
    Option (List (List ℚ) × List Arr2) :=
  grad_go chain_grad model centers seds morphs

/-- Source `logL(data, model, weights=1)`: elementwise
`0.5 * weights * (data - model)^2`.  In the pipeline `data` and `model` have
the same shape. -/
def logL (data model : Arr3) (weights : ℚ) : Arr3 :=
  ⟨model.B, model.N, model.M, fun c i j =>
    1/2 * weights * (data.val c i j - model.val c i j) ^ 2⟩

/-- Source `grad_logL(data, model, weights=1)`: elementwise
`weights * (model - data)`.  In the pipeline `data` and `model` have the same
shape. -/
def grad_logL (data model : Arr3) (weights : ℚ) : Arr3 :=
  ⟨model.B, model.N, model.M, fun c i j =>
    weights * (model.val c i j - data.val c i j)⟩

/-- Source `calculate_gradients_direct(images, centers, seds, morphs)`:
render the full model at the shape of `images`, form the upstream gradient of
the loss (default weights = 1), and collect the per-component gradients. -/
def calculate_gradients_direct (images : Arr3) (centers : List (ℤ × ℤ))
    (seds : List (List ℚ)) (morphs : List Arr2) :
    Option (List (List ℚ) × List Arr2) :=
  match get_full_model seds morphs centers (images.B, images.N, images.M) with
  | none => none
  | some (model, _) =>
    let gL := grad_logL images model 1
    grad_get_full_model gL model centers seds morphs

/-- Numpy `np.random.randint(lo, hi)`, whose result is uniform over
`[lo, hi)`: modelled with an explicit raw draw `v`, reduced into the interval
as `lo + v % (hi - lo)`.  The source always calls it with `lo < hi`. -/
def randint (lo hi : ℕ) (v : ℕ) : ℕ := lo + v % (hi - lo)

/-- The center placed for one component by source `build_scene` on an image of
spatial shape `(N, M)`: `cy = randint(4, N-4)`, `cx = randint(4, M-4)`, with
`vy` and `vx` the raw draws of the two calls. -/
def build_scene_center (N M : ℕ) (vy vx : ℕ) : ℤ × ℤ :=
  ((randint 4 (N - 4) vy : ℤ), (randint 4 (M - 4) vx : ℤ))

/-- The list of centers placed by source `build_scene` for `K` components on
an image of shape `(B, N, M)` (the bounds come from `images.shape[1]` and
`images.shape[2]`), with `draw k` the pair of raw randint draws of
iteration `k`. -/
def build_scene_centers (shape : ℕ × ℕ × ℕ) (K : ℕ) (draw : ℕ → ℕ × ℕ) :
    List (ℤ × ℤ) :=
  (List.range K).map
    (fun k => build_scene_center shape.2.1 shape.2.2 (draw k).1 (draw k).2)

/-- The 3x3 window of a center coordinate `y` lies fully inside an axis of
length `n`: rows `y-1, y, y+1` are all legal non-negative indices. -/
def WindowInside (n : ℕ) (y : ℤ) : Prop := 1 ≤ y ∧ y + 2 ≤ (n : ℤ)

/-- Python negative-index wrapping makes `slice(y-1, y+2)` on an axis of
length `n` select a full, silently relocated 3-window: this happens exactly
for `1 - n ≤ y ≤ -3`. -/
def WindowWraps (n : ℕ) (y : ℤ) : Prop := 1 - (n : ℤ) ≤ y ∧ y ≤ -3

/-- A heap object: one numpy array of the pipeline.  The heap model makes the
in-place updates of the source explicit, so that the frame claim (inputs are
never written) is a real statement. -/
inductive NpVal where
  | arr3 (a : Arr3)
  | sedsV (s : List (List ℚ))
  | morphsV (m : List Arr2)
  | centersV (c : List (ℤ × ℤ))

/-- A heap of numpy array objects, addressed by position. -/
abbrev Heap := List NpVal

/-- Read a three-dimensional array out of the heap. -/
def heapArr3 (h : Heap) (id : ℕ) : Option Arr3 :=
  match List.get? h id with
  | some (NpVal.arr3 a) => some a
  | _ => none

/-- Read the seds object out of the heap. -/
def heapSeds (h : Heap) (id : ℕ) : Option (List (List ℚ)) :=
  match List.get? h id with
  | some (NpVal.sedsV s) => some s
  | _ => none

/-- Read the morphs object out of the heap. -/
def heapMorphs (h : Heap) (id : ℕ) : Option (List Arr2) :=
  match List.get? h id with
  | some (NpVal.morphsV m) => some m
  | _ => none

/-- Read the centers object out of the heap. -/
def heapCenters (h : Heap) (id : ℕ) : Option (List (ℤ × ℤ)) :=
  match List.get? h id with
  | some (NpVal.centersV c) => some c
  | _ => none

/-- In-place `h[id][:, box] += src` on the heap: the single mutating
operation of the direct pipeline, targeting exactly the heap entry `id`. -/
def heapAddSlice (h : Heap) (id : ℕ) (b : Box) (src : Arr3) : Option Heap :=
  match heapArr3 h id with
  | none => none
  | some dest =>
    match addSlice dest b src with
    | none => none
    | some m => some (List.set h id (NpVal.arr3 m))

/-- Heap-level loop of `get_full_model`: identical control flow to
`render_go`, but the accumulating model lives in the heap at `modelId` and is
updated in place. -/
def render_go_st (h : Heap) (modelId : ℕ) (lastBox : Option Box) :
    List (List ℚ) → List Arr2 → List (ℤ × ℤ) → Option (Heap × Box)
  | [], _, _ => lastBox.map (fun b => (h, b))
  | sed :: seds, morph :: morphs, center :: centers =>
    match heapAddSlice h modelId (get_component_model sed morph center).2
        (get_component_model sed morph center).1 with
    | none => none
    | some h2 => render_go_st h2 modelId (some (boxOf center)) seds morphs centers
  | _ :: _, _, _ => none

/-- Heap-level `calculate_gradients_direct`: the four inputs are read from
the heap, `np.zeros(images.shape)` is allocated as a fresh heap entry, the
component patches are accumulated into that entry in place, and the gradients
are computed; the final heap is returned with the gradients. -/
def calculate_gradients_direct_st (h : Heap)
    (imagesId centersId sedsId morphsId : ℕ) :
    Option (Heap × (List (List ℚ) × List Arr2)) :=
  match heapArr3 h imagesId, heapCenters h centersId,
      heapSeds h sedsId, heapMorphs h morphsId with
  | some images, some cs, some ss, some ms =>
    let modelId := h.length
    let h1 := h ++ [NpVal.arr3 (zeros (images.B, images.N, images.M))]
    match render_go_st h1 modelId none ss ms cs with
    | none => none
    | some (h2, _) =>
      match heapArr3 h2 modelId with
      | none => none
      | some model =>
        let gL := grad_logL images model 1
        match grad_get_full_model gL model cs ss ms with
        | none => none
        | some g => some (h2, g)
  | _, _, _, _ => none

/-- Success condition of one accumulation step of the render loop: the
broadcast compatibility checked by `addSlice` for the patch of one component,
which depends only on the target shape and on the component itself, never on
the accumulated values. -/
def stepOk (B N M : ℕ) (sed : List ℚ) (morph : Arr2) (center : ℤ × ℤ) : Bool :=
  bCompat sed.length B &&
    bCompat morph.N (sliceLen N (center.1 - 1) (center.1 + 2)) &&
    bCompat morph.M (sliceLen M (center.2 - 1) (center.2 + 2))

/-- The additive contribution of one component to pixel `(c, i, j)` of a model
of shape `(B, N, M)`: what a successful `addSlice` of its patch adds there. -/
def contrib (B N M : ℕ) (sed : List ℚ) (morph : Arr2) (center : ℤ × ℤ)
    (c i j : ℕ) : ℚ :=
  if c < B ∧ sliceStart N (center.1 - 1) ≤ i ∧
      i < sliceStart N (center.1 - 1) + sliceLen N (center.1 - 1) (center.1 + 2) ∧
      sliceStart M (center.2 - 1) ≤ j ∧
      j < sliceStart M (center.2 - 1) + sliceLen M (center.2 - 1) (center.2 + 2) then
    sed.getD (bIdx sed.length c) 0 *
      morph.val (bIdx morph.N (i - sliceStart N (center.1 - 1)))
        (bIdx morph.M (j - sliceStart M (center.2 - 1)))
  else 0

/-- Total contribution of a list of components to pixel `(c, i, j)`. -/
def totalContrib (B N M : ℕ) (seds : List (List ℚ)) (morphs : List Arr2)
    (centers : List (ℤ × ℤ)) (c i j : ℕ) : ℚ :=
  ((seds.zip (morphs.zip centers)).map
    (fun t => contrib B N M t.1 t.2.1 t.2.2 c i j)).sum

/-- A component that makes the render fail: its sed length is incompatible
with the channel count (not equal and not the silently broadcast length one),
or the 3x3 window of its center neither lies inside the image nor wraps to a
full window through negative indexing, on either spatial axis. -/
def BadComp (B N M : ℕ) (sed : List ℚ) (center : ℤ × ℤ) : Prop :=
  (sed.length ≠ B ∧ sed.length ≠ 1) ∨
    (¬ WindowInside N center.1 ∧ ¬ WindowWraps N center.1) ∨
    (¬ WindowInside M center.2 ∧ ¬ WindowWraps M center.2)

/-- The 3x3 windows of two centers do not overlap: the centers are at least
three apart on some axis. -/
def WindowsDisjoint (c1 c2 : ℤ × ℤ) : Prop :=
  3 ≤ |c1.1 - c2.1| ∨ 3 ≤ |c1.2 - c2.2|

instance (n : ℕ) (y : ℤ) : Decidable (WindowInside n y) :=
  inferInstanceAs (Decidable (1 ≤ y ∧ y + 2 ≤ (n : ℤ)))

instance (n : ℕ) (y : ℤ) : Decidable (WindowWraps n y) :=
  inferInstanceAs (Decidable (1 - (n : ℤ) ≤ y ∧ y ≤ -3))

instance (B N M : ℕ) (sed : List ℚ) (center : ℤ × ℤ) :
    Decidable (BadComp B N M sed center) :=
  inferInstanceAs (Decidable (_ ∨ _ ∨ _))

instance (c1 c2 : ℤ × ℤ) : Decidable (WindowsDisjoint c1 c2) :=
  inferInstanceAs (Decidable (_ ∨ _))

/-- The all-zero 2-D array, used as a default value. -/
def arr2zero : Arr2 := ⟨0, 0, fun _ _ => 0⟩

/-- All-ones 3x3 morphology, for concrete evaluations. -/
def onesM : Arr2 := ⟨3, 3, fun _ _ => 1⟩

/-- Identity-like 3x3 morphology: a single one at the center, zeros
elsewhere. -/
def deltaM : Arr2 := ⟨3, 3, fun i j => if i = 1 ∧ j = 1 then 1 else 0⟩

/-- A concrete four-object input heap: a zero data image of shape
`(1, 5, 5)` and one component with unit sed, all-ones morphology and center
`(2, 2)`. -/
def exHeap : Heap :=
  [NpVal.arr3 (zeros (1, 5, 5)), NpVal.centersV [(2, 2)],
    NpVal.sedsV [[1]], NpVal.morphsV [onesM]]

/-! Helper lemmas about slice normalisation and broadcasting. -/

theorem sliceStart_of_inside {n : ℕ} {y : ℤ} (h : WindowInside n y) :
    sliceStart n (y - 1) = (y - 1).toNat := by
  obtain ⟨h1, h2⟩ := h
  simp only [sliceStart, pyIdx]
  rw [if_neg (by omega)]
  omega

theorem sliceLen_of_inside {n : ℕ} {y : ℤ} (h : WindowInside n y) :
    sliceLen n (y - 1) (y + 2) = 3 := by
  obtain ⟨h1, h2⟩ := h
  simp only [sliceLen, pyIdx]
  rw [if_neg (by omega), if_neg (by omega)]
  omega

theorem sliceLen_window_eq_three_iff (n : ℕ) (y : ℤ) :
    sliceLen n (y - 1) (y + 2) = 3 ↔ WindowInside n y ∨ WindowWraps n y := by
  simp only [sliceLen, pyIdx, WindowInside, WindowWraps]
  split <;> split <;> omega

theorem bIdx_of_lt {n i : ℕ} (h : i < n) : bIdx n i = i := by
  simp only [bIdx]
  split <;> omega

theorem addSlice_patch_none (dest : Arr3) (sed : List ℚ) (morph : Arr2)
    (center : ℤ × ℤ)
    (h : stepOk dest.B dest.N dest.M sed morph center = false) :
    addSlice dest (boxOf center) (outerPatch sed morph) = none := by
  simp only [stepOk] at h
  simp only [addSlice, outerPatch, boxOf]
  rw [if_neg]
  simp [h]

theorem addSlice_patch_some (dest : Arr3) (sed : List ℚ) (morph : Arr2)
    (center : ℤ × ℤ)
    (h : stepOk dest.B dest.N dest.M sed morph center = true) :
    addSlice dest (boxOf center) (outerPatch sed morph) =
      some ⟨dest.B, dest.N, dest.M, fun c i j =>
        dest.val c i j + contrib dest.B dest.N dest.M sed morph center c i j⟩ := by
  simp only [stepOk] at h
  simp only [addSlice, outerPatch, boxOf]
  rw [if_pos (by simp [h])]
  simp only [Option.some.injEq, Arr3.mk.injEq, true_and]
  funext c i j
  simp only [contrib, outerPatch]

/-- Characterisation of the render loop on components whose accumulation
steps are all broadcast-compatible: it succeeds, preserves the model shape,
and adds exactly the total contribution of the components to every pixel. -/
theorem render_go_spec (B N M : ℕ) :
    ∀ (seds : List (List ℚ)) (morphs : List Arr2) (centers : List (ℤ × ℤ))
      (model : Arr3) (lastBox : Option Box),
      model.B = B → model.N = N → model.M = M →
      seds.length = morphs.length → seds.length = centers.length →
      (∀ t ∈ seds.zip (morphs.zip centers), stepOk B N M t.1 t.2.1 t.2.2 = true) →
      (lastBox.isSome = true ∨ seds ≠ []) →
      ∃ m b, render_go model lastBox seds morphs centers = some (m, b) ∧
        m.B = B ∧ m.N = N ∧ m.M = M ∧
        ∀ c i j, m.val c i j =
          model.val c i j + totalContrib B N M seds morphs centers c i j := by
  intro seds
  induction seds with
  | nil =>
    intro morphs centers model lastBox hB hN hM _ _ _ hne
    rcases lastBox with _ | b
    · rcases hne with hne | hne
      · simp at hne
      · simp at hne
    · exact ⟨model, b, rfl, hB, hN, hM, by simp [totalContrib]⟩
  | cons sed seds ih =>
    intro morphs centers model lastBox hB hN hM hlm hlc hok _
    match morphs, centers with
    | morph :: morphs, center :: centers =>
      have hok0 : stepOk B N M sed morph center = true :=
        hok (sed, morph, center) (by simp [List.zip_cons_cons])
      have hstep := addSlice_patch_some model sed morph center
        (by rw [hB, hN, hM]; exact hok0)
      rw [hB, hN, hM] at hstep
      obtain ⟨m, b, hrun, hmB, hmN, hmM, hval⟩ :=
        ih morphs centers
          ⟨B, N, M, fun c i j => model.val c i j + contrib B N M sed morph center c i j⟩
          (some (boxOf center)) rfl rfl rfl (by simpa using hlm) (by simpa using hlc)
          (fun t ht => hok t (by simp [List.zip_cons_cons, ht])) (Or.inl rfl)
      refine ⟨m, b, ?_, hmB, hmN, hmM, fun c i j => ?_⟩
      · simp only [render_go, get_component_model]
        rw [hstep]
        exact hrun
      · rw [hval c i j]
        simp only [totalContrib, List.zip_cons_cons, List.map_cons, List.sum_cons]
        ring

/-- If any component of the list fails its broadcast-compatibility check, the
render loop returns `none`: the loop aborts at the first failing component,
and the failure of a step never depends on the accumulated values. -/
theorem render_go_none (B N M : ℕ) :
    ∀ (seds : List (List ℚ)) (morphs : List Arr2) (centers : List (ℤ × ℤ))
      (model : Arr3) (lastBox : Option Box),
      model.B = B → model.N = N → model.M = M →
      seds.length = morphs.length → seds.length = centers.length →
      (∃ k, k < seds.length ∧
        stepOk B N M (seds.getD k []) (morphs.getD k arr2zero)
          (centers.getD k (0, 0)) = false) →
      render_go model lastBox seds morphs centers = none := by
  intro seds
  induction seds with
  | nil =>
    rintro morphs centers model lastBox _ _ _ _ _ ⟨k, hk, -⟩
    simp at hk
  | cons sed seds ih =>
    rintro morphs centers model lastBox hB hN hM hlm hlc ⟨k, hk, hbad⟩
    match morphs, centers with
    | morph :: morphs, center :: centers =>
      cases k with
      | zero =>
        simp only [List.getD_cons_zero] at hbad
        have hstep := addSlice_patch_none model sed morph center
          (by rw [hB, hN, hM]; exact hbad)
        simp only [render_go, get_component_model]
        rw [hstep]
      | succ k =>
        simp only [List.getD_cons_succ] at hbad
        cases hok0 : stepOk B N M sed morph center with
        | false =>
          have hstep := addSlice_patch_none model sed morph center
            (by rw [hB, hN, hM]; exact hok0)
          simp only [render_go, get_component_model]
          rw [hstep]
        | true =>
          have hstep := addSlice_patch_some model sed morph center
            (by rw [hB, hN, hM]; exact hok0)
          rw [hB, hN, hM] at hstep
          simp only [render_go, get_component_model]
          rw [hstep]
          exact ih morphs centers _ (some (boxOf center)) rfl rfl rfl
            (by simpa using hlm) (by simpa using hlc)
            ⟨k, by simpa using hk, hbad⟩

/-- A well-formed component (sed of channel length, 3x3 morphology, window
fully inside the image) always passes the accumulation check. -/
theorem stepOk_of_valid {B N M : ℕ} {sed : List ℚ} {morph : Arr2}
    {center : ℤ × ℤ} (hsed : sed.length = B) (hmN : morph.N = 3)
    (hmM : morph.M = 3) (hy : WindowInside N center.1)
    (hx : WindowInside M center.2) :
    stepOk B N M sed morph center = true := by
  simp only [stepOk, hsed, hmN, hmM, sliceLen_of_inside hy, sliceLen_of_inside hx,
    bCompat, Bool.and_eq_true, Bool.or_eq_true, beq_iff_eq]
  tauto

/-- Total contribution splits over concatenation of component lists. -/
theorem totalContrib_append (B N M : ℕ) (s1 s2 : List (List ℚ))
    (m1 m2 : List Arr2) (c1 c2 : List (ℤ × ℤ))
    (h1 : s1.length = m1.length) (h2 : s1.length = c1.length) (c i j : ℕ) :
    totalContrib B N M (s1 ++ s2) (m1 ++ m2) (c1 ++ c2) c i j =
      totalContrib B N M s1 m1 c1 c i j + totalContrib B N M s2 m2 c2 c i j := by
  simp only [totalContrib]
  rw [List.zip_append (show m1.length = c1.length by omega),
    List.zip_append (show s1.length = (m1.zip c1).length by
      rw [List.length_zip m1 c1]; omega),
    List.map_append, List.sum_append]

/-! Claim theorems (first group). -/

/-- C3: rendering zero components is claimed to yield a zero image of the
requested shape; the source instead fails, because `get_full_model` ends with
`return model, box` and the loop variable `box` is never bound when the
component lists are empty (UnboundLocalError, modelled by `none`). -/
theorem c3_empty_render_errors : get_full_model [] [] [] (1, 4, 4) = none := rfl

/-- C7: the box computed by `get_component_model` for center `(y, x)` is
exactly `(slice(y-1, y+2), slice(x-1, x+2))`, the 3x3 window with one row and
one column of margin around the center, and it is determined solely by the
center: it does not depend on the sed or on the morphology. -/
theorem c7_box_from_center (sed sed2 : List ℚ) (morph morph2 : Arr2) (y x : ℤ) :
    (get_component_model sed morph (y, x)).2 = ⟨y - 1, y + 2, x - 1, x + 2⟩ ∧
      (get_component_model sed morph (y, x)).2 =
        (get_component_model sed2 morph2 (y, x)).2 :=
  ⟨rfl, rfl⟩

/-- C10: the result of `grad_get_component_model` does not depend on its
`model` argument: any two model arrays give identical results. -/
theorem c10_model_argument_unused (chain_grad m1 m2 : Arr3) (sed : List ℚ)
    (morph : Arr2) (center : ℤ × ℤ) :
    grad_get_component_model chain_grad m1 sed morph center =
      grad_get_component_model chain_grad m2 sed morph center := rfl

/-- C2: for a two-component scene with distinct boxes, the second value
returned by `get_full_model` is the box of the LAST component alone, not the
list of boxes one per component: the source builds the list `boxes` but then
returns the loop variable `box`. -/
theorem c2_returns_last_box_only :
    (get_full_model [[1], [1]] [onesM, onesM] [(2, 2), (5, 5)] (1, 9, 9)).map
        Prod.snd = some (boxOf (5, 5)) ∧ boxOf (2, 2) ≠ boxOf (5, 5) := by
  exact ⟨by decide, by decide⟩

/-- C4 counterexample: a component whose sed length `1` differs from the
channel count `2` of the image is claimed to make the render fail fast with a
shape error; instead numpy broadcasting silently accepts the length-one sed
and the render succeeds. -/
theorem c4_counterexample :
    ([(5 : ℚ)] : List ℚ).length ≠ 2 ∧
      (get_full_model [[5]] [onesM] [(2, 2)] (2, 5, 5)).isSome = true :=
  ⟨by decide, rfl⟩

/-- C8: every center `(cy, cx)` placed by `build_scene` on a shape
`(B, N, M)` with `N > 8` and `M > 8` satisfies `4 ≤ cy ≤ N - 5` and
`4 ≤ cx ≤ M - 5` (margin of at least four pixels from every edge), so every
3x3 window lies fully inside the image bounds. -/
theorem c8_build_scene_margin (B N M K : ℕ) (draw : ℕ → ℕ × ℕ)
    (hN : 8 < N) (hM : 8 < M) (c : ℤ × ℤ)
    (hc : c ∈ build_scene_centers (B, N, M) K draw) :
    (4 ≤ c.1 ∧ c.1 ≤ (N : ℤ) - 5) ∧ (4 ≤ c.2 ∧ c.2 ≤ (M : ℤ) - 5) ∧
      WindowInside N c.1 ∧ WindowInside M c.2 := by
  simp only [build_scene_centers, List.mem_map, List.mem_range] at hc
  obtain ⟨k, -, rfl⟩ := hc
  have h1 : (draw k).1 % (N - 4 - 4) < N - 8 := Nat.mod_lt _ (by omega)
  have h2 : (draw k).2 % (M - 4 - 4) < M - 8 := Nat.mod_lt _ (by omega)
  simp only [build_scene_center, randint, WindowInside]
  refine ⟨⟨?_, ?_⟩, ⟨?_, ?_⟩, ⟨?_, ?_⟩, ⟨?_, ?_⟩⟩ <;> omega

/-- Witness for C8 at a concrete scene shape, count and draw stream. -/
theorem c8_witness :
    (8 < 9 ∧ ((4 : ℤ), (4 : ℤ)) ∈ build_scene_centers (1, 9, 9) 1 (fun _ => (0, 0))) ∧
      ((4 ≤ ((4 : ℤ), (4 : ℤ)).1 ∧ ((4 : ℤ), (4 : ℤ)).1 ≤ (9 : ℤ) - 5) ∧
        (4 ≤ ((4 : ℤ), (4 : ℤ)).2 ∧ ((4 : ℤ), (4 : ℤ)).2 ≤ (9 : ℤ) - 5) ∧
        WindowInside 9 ((4 : ℤ), (4 : ℤ)).1 ∧ WindowInside 9 ((4 : ℤ), (4 : ℤ)).2) :=
  ⟨⟨by decide, by decide⟩,
    c8_build_scene_margin 1 9 9 1 (fun _ => (0, 0)) (by decide) (by decide)
      ((4 : ℤ), (4 : ℤ)) (by decide)⟩

/-- C4 (amended): the render and the direct gradient pipeline fail fast
(raise, modelled by `none`) whenever some component has a sed length that is
neither the channel count nor the silently broadcast length one, or a center
whose 3x3 window neither lies fully inside the image nor wraps through
Python negative indexing to a full in-bounds window; no silent truncation of
a window ever succeeds.  (The two carved-out cases are forced: a length-one
sed broadcasts silently, and a fully wrapped negative center relocates the
window silently.) -/
theorem c4_amended_fail_fast (images : Arr3) (seds : List (List ℚ))
    (morphs : List Arr2) (centers : List (ℤ × ℤ))
    (hlm : seds.length = morphs.length) (hlc : seds.length = centers.length)
    (hmorph : ∀ m ∈ morphs, m.N = 3 ∧ m.M = 3)
    (hbad : ∃ k, k < seds.length ∧
      BadComp images.B images.N images.M (seds.getD k [])
        (centers.getD k (0, 0))) :
    get_full_model seds morphs centers (images.B, images.N, images.M) = none ∧
      calculate_gradients_direct images centers seds morphs = none := by
  obtain ⟨k, hk, hbadk⟩ := hbad
  have hmem : morphs.getD k arr2zero ∈ morphs := by
    have hk2 : k < morphs.length := by omega
    rw [List.getD_eq_getElem?_getD, List.getElem?_eq_getElem hk2]
    exact List.getElem_mem hk2
  obtain ⟨hmN, hmM⟩ := hmorph _ hmem
  have hstep : stepOk images.B images.N images.M (seds.getD k [])
      (morphs.getD k arr2zero) (centers.getD k (0, 0)) = false := by
    rw [Bool.eq_false_iff]
    intro htrue
    simp only [stepOk, Bool.and_eq_true, bCompat, Bool.or_eq_true,
      beq_iff_eq] at htrue
    obtain ⟨⟨hsed, hrow⟩, hcol⟩ := htrue
    rcases hbadk with h | h | h
    · tauto
    · have hne : sliceLen images.N ((centers.getD k (0, 0)).1 - 1)
          ((centers.getD k (0, 0)).1 + 2) ≠ 3 := by
        rw [Ne, sliceLen_window_eq_three_iff]
        tauto
      rw [hmN] at hrow
      rcases hrow with h3 | h3 <;> omega
    · have hne : sliceLen images.M ((centers.getD k (0, 0)).2 - 1)
          ((centers.getD k (0, 0)).2 + 2) ≠ 3 := by
        rw [Ne, sliceLen_window_eq_three_iff]
        tauto
      rw [hmM] at hcol
      rcases hcol with h3 | h3 <;> omega
  have hrender : get_full_model seds morphs centers
      (images.B, images.N, images.M) = none :=
    render_go_none images.B images.N images.M seds morphs centers _ none
      rfl rfl rfl hlm hlc ⟨k, hk, hstep⟩
  refine ⟨hrender, ?_⟩
  simp only [calculate_gradients_direct, hrender]

/-- Witness for C4 (amended): one component with center `(0, 0)`, whose 3x3
window falls outside a `(1, 5, 5)` image without wrapping fully, makes both
the render and the gradient pipeline fail. -/
theorem c4_amended_witness :
    (∀ m ∈ [onesM], m.N = 3 ∧ m.M = 3) ∧
      (∃ k, k < ([[(1 : ℚ)]] : List (List ℚ)).length ∧
        BadComp (zeros (1, 5, 5)).B (zeros (1, 5, 5)).N (zeros (1, 5, 5)).M
          (([[(1 : ℚ)]] : List (List ℚ)).getD k [])
          (([((0 : ℤ), (0 : ℤ))] : List (ℤ × ℤ)).getD k (0, 0))) ∧
      get_full_model [[1]] [onesM] [((0 : ℤ), (0 : ℤ))]
          ((zeros (1, 5, 5)).B, (zeros (1, 5, 5)).N, (zeros (1, 5, 5)).M) = none ∧
      calculate_gradients_direct (zeros (1, 5, 5)) [((0 : ℤ), (0 : ℤ))]
          [[1]] [onesM] = none := by
  refine ⟨by decide, ⟨0, by decide, by decide⟩, ?_⟩
  exact c4_amended_fail_fast (zeros (1, 5, 5)) [[1]] [onesM]
    [((0 : ℤ), (0 : ℤ))] rfl rfl (by decide) ⟨0, by decide, by decide⟩

/-- C5: rendering the single component with sed `[1]`, the identity-like 3x3
morphology (single one at its center) and center `(5, 5)` into a `(1, 11, 11)`
image produces an image whose value is `1` at pixel `(0, 5, 5)` and `0` at
every other pixel. -/
theorem c5_single_delta_render :
    ∃ m b, get_full_model [[1]] [deltaM] [((5 : ℤ), (5 : ℤ))] (1, 11, 11) =
        some (m, b) ∧
      ∀ c i j, m.val c i j = if c = 0 ∧ i = 5 ∧ j = 5 then 1 else 0 := by
  obtain ⟨m, b, hrun, -, -, -, hval⟩ :=
    render_go_spec 1 11 11 [[1]] [deltaM] [((5 : ℤ), (5 : ℤ))]
      (zeros (1, 11, 11)) none rfl rfl rfl rfl rfl (by decide)
      (Or.inr (by simp))
  refine ⟨m, b, hrun, fun c i j => ?_⟩
  rw [hval c i j]
  have hstart : sliceStart 11 ((5 : ℤ) - 1) = 4 := by decide
  have hlen : sliceLen 11 ((5 : ℤ) - 1) ((5 : ℤ) + 2) = 3 := by decide
  simp only [totalContrib, List.zip_cons_cons, List.zip_nil_right,
    List.map_cons, List.map_nil, List.sum_cons, List.sum_nil, contrib,
    hstart, hlen, zeros, deltaM, bIdx]
  norm_num
  split_ifs <;> first | rfl | omega

/-- C6: rendering is linear in the components.  For two non-empty lists of
well-formed components A and B whose 3x3 windows are pairwise disjoint
across the lists (all windows fully inside the image), rendering the
concatenation of A and B produces the elementwise sum of the images rendered
from A alone and from B alone. -/
theorem c6_render_linear (Bc N M : ℕ)
    (sedsA : List (List ℚ)) (morphsA : List Arr2) (centersA : List (ℤ × ℤ))
    (sedsB : List (List ℚ)) (morphsB : List Arr2) (centersB : List (ℤ × ℤ))
    (hneA : sedsA ≠ []) (hneB : sedsB ≠ [])
    (hlA1 : sedsA.length = morphsA.length) (hlA2 : sedsA.length = centersA.length)
    (hlB1 : sedsB.length = morphsB.length) (hlB2 : sedsB.length = centersB.length)
    (hvalidA : ∀ t ∈ sedsA.zip (morphsA.zip centersA),
      t.1.length = Bc ∧ t.2.1.N = 3 ∧ t.2.1.M = 3 ∧
        WindowInside N t.2.2.1 ∧ WindowInside M t.2.2.2)
    (hvalidB : ∀ t ∈ sedsB.zip (morphsB.zip centersB),
      t.1.length = Bc ∧ t.2.1.N = 3 ∧ t.2.1.M = 3 ∧
        WindowInside N t.2.2.1 ∧ WindowInside M t.2.2.2)
    (hdisj : ∀ cA ∈ centersA, ∀ cB ∈ centersB, WindowsDisjoint cA cB) :
    ∃ mAB bAB mA bA mB bB,
      get_full_model (sedsA ++ sedsB) (morphsA ++ morphsB)
          (centersA ++ centersB) (Bc, N, M) = some (mAB, bAB) ∧
        get_full_model sedsA morphsA centersA (Bc, N, M) = some (mA, bA) ∧
        get_full_model sedsB morphsB centersB (Bc, N, M) = some (mB, bB) ∧
        ∀ c i j, mAB.val c i j = mA.val c i j + mB.val c i j := by
  have hokA : ∀ t ∈ sedsA.zip (morphsA.zip centersA),
      stepOk Bc N M t.1 t.2.1 t.2.2 = true := fun t ht => by
    obtain ⟨h1, h2, h3, h4, h5⟩ := hvalidA t ht
    exact stepOk_of_valid h1 h2 h3 h4 h5
  have hokB : ∀ t ∈ sedsB.zip (morphsB.zip centersB),
      stepOk Bc N M t.1 t.2.1 t.2.2 = true := fun t ht => by
    obtain ⟨h1, h2, h3, h4, h5⟩ := hvalidB t ht
    exact stepOk_of_valid h1 h2 h3 h4 h5
  have hzipAB : (sedsA ++ sedsB).zip ((morphsA ++ morphsB).zip
      (centersA ++ centersB)) =
      sedsA.zip (morphsA.zip centersA) ++ sedsB.zip (morphsB.zip centersB) := by
    rw [List.zip_append (show morphsA.length = centersA.length by omega),
      List.zip_append (show sedsA.length = (morphsA.zip centersA).length by
        rw [List.length_zip morphsA centersA]; omega)]
  obtain ⟨mAB, bAB, hrunAB, -, -, -, hvalAB⟩ :=
    render_go_spec Bc N M (sedsA ++ sedsB) (morphsA ++ morphsB)
      (centersA ++ centersB) (zeros (Bc, N, M)) none rfl rfl rfl
      (by simp; omega) (by simp; omega)
      (by rw [hzipAB]; intro t ht
          rcases List.mem_append.mp ht with h | h
          · exact hokA t h
          · exact hokB t h)
      (Or.inr (by simp [hneA]))
  obtain ⟨mA, bA, hrunA, -, -, -, hvalA⟩ :=
    render_go_spec Bc N M sedsA morphsA centersA (zeros (Bc, N, M)) none
      rfl rfl rfl hlA1 hlA2 hokA (Or.inr hneA)
  obtain ⟨mB, bB, hrunB, -, -, -, hvalB⟩ :=
    render_go_spec Bc N M sedsB morphsB centersB (zeros (Bc, N, M)) none
      rfl rfl rfl hlB1 hlB2 hokB (Or.inr hneB)
  refine ⟨mAB, bAB, mA, bA, mB, bB, hrunAB, hrunA, hrunB, fun c i j => ?_⟩
  rw [hvalAB c i j, hvalA c i j, hvalB c i j,
    totalContrib_append Bc N M sedsA sedsB morphsA morphsB centersA centersB
      hlA1 hlA2 c i j]
  simp only [zeros]
  ring

/-- Witness for C6: two single-component lists with disjoint windows in a
`(1, 9, 9)` image. -/
theorem c6_witness :
    (([[(1 : ℚ)]] : List (List ℚ)) ≠ [] ∧
      (∀ t ∈ ([[(1 : ℚ)]] : List (List ℚ)).zip
          ([onesM].zip [((2 : ℤ), (2 : ℤ))]),
        t.1.length = 1 ∧ t.2.1.N = 3 ∧ t.2.1.M = 3 ∧
          WindowInside 9 t.2.2.1 ∧ WindowInside 9 t.2.2.2) ∧
      (∀ t ∈ ([[(2 : ℚ)]] : List (List ℚ)).zip
          ([deltaM].zip [((2 : ℤ), (6 : ℤ))]),
        t.1.length = 1 ∧ t.2.1.N = 3 ∧ t.2.1.M = 3 ∧
          WindowInside 9 t.2.2.1 ∧ WindowInside 9 t.2.2.2) ∧
      (∀ cA ∈ [((2 : ℤ), (2 : ℤ))], ∀ cB ∈ [((2 : ℤ), (6 : ℤ))],
        WindowsDisjoint cA cB)) ∧
      (∃ mAB bAB mA bA mB bB,
        get_full_model ([[(1 : ℚ)]] ++ [[(2 : ℚ)]]) ([onesM] ++ [deltaM])
            ([((2 : ℤ), (2 : ℤ))] ++ [((2 : ℤ), (6 : ℤ))]) (1, 9, 9) =
            some (mAB, bAB) ∧
          get_full_model [[(1 : ℚ)]] [onesM] [((2 : ℤ), (2 : ℤ))] (1, 9, 9) =
            some (mA, bA) ∧
          get_full_model [[(2 : ℚ)]] [deltaM] [((2 : ℤ), (6 : ℤ))] (1, 9, 9) =
            some (mB, bB) ∧
          ∀ c i j, mAB.val c i j = mA.val c i j + mB.val c i j) :=
  ⟨⟨by decide, by decide, by decide, by decide⟩,
    c6_render_linear 1 9 9 [[(1 : ℚ)]] [onesM] [((2 : ℤ), (2 : ℤ))]
      [[(2 : ℚ)]] [deltaM] [((2 : ℤ), (6 : ℤ))] (by decide) (by decide)
      rfl rfl rfl rfl (by decide) (by decide) (by decide)⟩

/-- On matching 3x3 spatial shapes, the sed-gradient contraction succeeds and
each channel entry is the plain double sum against the template. -/
theorem einsum_jk_spec (a : Arr3) (w : Arr2) (haN : a.N = 3) (haM : a.M = 3)
    (hwN : w.N = 3) (hwM : w.M = 3) :
    ∃ sg, einsum_jk a w = some sg ∧ ∀ c, c < a.B →
      sg.getD c 0 = ∑ i ∈ Finset.range 3, ∑ j ∈ Finset.range 3,
        a.val c i j * w.val i j := by
  refine ⟨_, by unfold einsum_jk; rw [if_pos (by rw [haN, haM, hwN, hwM]; rfl)],
    fun c hc => ?_⟩
  rw [List.getD_eq_getElem?_getD, List.getElem?_map, List.getElem?_range hc]
  simp only [Option.map_some', Option.getD_some]
  rw [haN, haM, hwN, hwM]
  simp [bIdx]

/-- On a matching channel label, the morph-gradient contraction succeeds and
every spatial entry is the plain channel sum against the weight vector. -/
theorem einsum_i_spec (s : List ℚ) (a : Arr3) (hs : s.length = a.B) :
    ∃ mg, einsum_i s a = some mg ∧ mg.N = a.N ∧ mg.M = a.M ∧
      ∀ i j, mg.val i j = ∑ c ∈ Finset.range a.B, s.getD c 0 * a.val c i j := by
  refine ⟨_, by unfold einsum_i; rw [if_pos (by rw [hs]; simp [bCompat])],
    rfl, rfl, fun i j => ?_⟩
  simp only
  rw [hs, max_self]
  refine Finset.sum_congr rfl fun c hc => ?_
  rw [Finset.mem_range] at hc
  rw [bIdx_of_lt hc]

/-- Characterisation of `grad_get_component_model` for a well-formed
component whose window lies fully inside the upstream gradient array: it
succeeds, the sed gradient contracts the window-restricted upstream gradient
against the template, and the morph gradient contracts it against the sed. -/
theorem grad_get_component_model_spec (gL model : Arr3) (sed : List ℚ)
    (morph : Arr2) (y x : ℤ)
    (hsed : sed.length = gL.B) (hmN : morph.N = 3) (hmM : morph.M = 3)
    (hy : WindowInside gL.N y) (hx : WindowInside gL.M x) :
    ∃ sg mg, grad_get_component_model gL model sed morph (y, x) = some (sg, mg) ∧
      (∀ c, c < gL.B →
        sg.getD c 0 = ∑ i ∈ Finset.range 3, ∑ j ∈ Finset.range 3,
          gL.val c ((y - 1).toNat + i) ((x - 1).toNat + j) * morph.val i j) ∧
      ∀ i j, mg.val i j = ∑ c ∈ Finset.range gL.B,
        sed.getD c 0 * gL.val c ((y - 1).toNat + i) ((x - 1).toNat + j) := by
  have hcgN : (sliceArr gL (boxOf (y, x))).N = 3 := by
    simpa [sliceArr, boxOf] using sliceLen_of_inside hy
  have hcgM : (sliceArr gL (boxOf (y, x))).M = 3 := by
    simpa [sliceArr, boxOf] using sliceLen_of_inside hx
  obtain ⟨sg, hjk, hsg⟩ :=
    einsum_jk_spec (sliceArr gL (boxOf (y, x))) morph hcgN hcgM hmN hmM
  obtain ⟨mg, hi, -, -, hmg⟩ :=
    einsum_i_spec sed (sliceArr gL (boxOf (y, x))) hsed
  refine ⟨sg, mg, ?_, fun c hc => ?_, fun i j => ?_⟩
  · simp only [grad_get_component_model]
    rw [hjk, hi]
  · rw [hsg c hc]
    refine Finset.sum_congr rfl fun i _ => Finset.sum_congr rfl fun j _ => ?_
    show gL.val c (sliceStart gL.N ((y, x).1 - 1) + i)
        (sliceStart gL.M ((y, x).2 - 1) + j) * morph.val i j = _
    rw [show ((y, x).1 : ℤ) - 1 = y - 1 from rfl,
      show ((y, x).2 : ℤ) - 1 = x - 1 from rfl,
      sliceStart_of_inside hy, sliceStart_of_inside hx]
  · rw [hmg i j]
    refine Finset.sum_congr rfl fun c _ => ?_
    show sed.getD c 0 * gL.val c (sliceStart gL.N ((y, x).1 - 1) + i)
        (sliceStart gL.M ((y, x).2 - 1) + j) = _
    rw [show ((y, x).1 : ℤ) - 1 = y - 1 from rfl,
      show ((y, x).2 : ℤ) - 1 = x - 1 from rfl,
      sliceStart_of_inside hy, sliceStart_of_inside hx]

/-- Characterisation of the gradient-collection loop on well-formed
components: it succeeds and entry `k` holds the two contractions for
component `k`. -/
theorem grad_go_spec (gL model : Arr3) :
    ∀ (centers : List (ℤ × ℤ)) (seds : List (List ℚ)) (morphs : List Arr2),
      centers.length = seds.length → centers.length = morphs.length →
      (∀ t ∈ seds.zip (morphs.zip centers),
        t.1.length = gL.B ∧ t.2.1.N = 3 ∧ t.2.1.M = 3 ∧
          WindowInside gL.N t.2.2.1 ∧ WindowInside gL.M t.2.2.2) →
      ∃ sgs mgs, grad_go gL model centers seds morphs = some (sgs, mgs) ∧
        ∀ k, k < centers.length →
          (∀ c, c < gL.B →
            (sgs.getD k []).getD c 0 =
              ∑ i ∈ Finset.range 3, ∑ j ∈ Finset.range 3,
                gL.val c (((centers.getD k (0, 0)).1 - 1).toNat + i)
                  (((centers.getD k (0, 0)).2 - 1).toNat + j) *
                  (morphs.getD k arr2zero).val i j) ∧
          ∀ i j, (mgs.getD k arr2zero).val i j =
            ∑ c ∈ Finset.range gL.B,
              (seds.getD k []).getD c 0 *
                gL.val c (((centers.getD k (0, 0)).1 - 1).toNat + i)
                  (((centers.getD k (0, 0)).2 - 1).toNat + j) := by
  intro centers
  induction centers with
  | nil =>
    intro seds morphs _ _ _
    exact ⟨[], [], rfl, fun k hk => by simp at hk⟩
  | cons center centers ih =>
    intro seds morphs hls hlm hvalid
    match seds, morphs with
    | sed :: seds, morph :: morphs =>
      obtain ⟨hsed, hmN, hmM, hy, hx⟩ :=
        hvalid (sed, morph, center) (by simp [List.zip_cons_cons])
      obtain ⟨sg, mg, hcomp, hsg, hmg⟩ :=
        grad_get_component_model_spec gL model sed morph center.1 center.2
          hsed hmN hmM hy hx
      rw [Prod.mk.eta] at hcomp
      obtain ⟨sgs, mgs, hrun, hind⟩ := ih seds morphs (by simpa using hls)
        (by simpa using hlm)
        (fun t ht => hvalid t (by simp [List.zip_cons_cons, ht]))
      refine ⟨sg :: sgs, mg :: mgs, ?_, ?_⟩
      · simp only [grad_go]
        rw [hcomp, hrun]
      · intro k hk
        cases k with
        | zero =>
          simp only [List.getD_cons_zero]
          exact ⟨hsg, hmg⟩
        | succ k =>
          simp only [List.getD_cons_succ]
          exact hind k (by simpa using hk)

/-- C1: for every list of well-formed components (sed of channel length, 3x3
morphology, 3x3 window fully inside the image) and every data image, the
direct gradient pipeline `calculate_gradients_direct` succeeds and computes,
for each component `k`, the sed gradient as the spatial contraction of the
window-restricted upstream gradient `weights * (model - data)` (default
weights one, realised by `grad_logL`) against the template, and the morph
gradient as its channel contraction against the sed. -/
theorem c1_direct_gradient_formulas (images : Arr3) (seds : List (List ℚ))
    (morphs : List Arr2) (centers : List (ℤ × ℤ)) (k : ℕ)
    (hl1 : seds.length = morphs.length) (hl2 : seds.length = centers.length)
    (hvalid : ∀ t ∈ seds.zip (morphs.zip centers),
      t.1.length = images.B ∧ t.2.1.N = 3 ∧ t.2.1.M = 3 ∧
        WindowInside images.N t.2.2.1 ∧ WindowInside images.M t.2.2.2)
    (hk : k < centers.length) :
    ∃ model b sgs mgs,
      get_full_model seds morphs centers (images.B, images.N, images.M) =
          some (model, b) ∧
        calculate_gradients_direct images centers seds morphs =
          some (sgs, mgs) ∧
        (∀ c, c < images.B →
          (sgs.getD k []).getD c 0 =
            ∑ i ∈ Finset.range 3, ∑ j ∈ Finset.range 3,
              (grad_logL images model 1).val c
                  (((centers.getD k (0, 0)).1 - 1).toNat + i)
                  (((centers.getD k (0, 0)).2 - 1).toNat + j) *
                (morphs.getD k arr2zero).val i j) ∧
        ∀ i j, (mgs.getD k arr2zero).val i j =
          ∑ c ∈ Finset.range images.B,
            (seds.getD k []).getD c 0 *
              (grad_logL images model 1).val c
                (((centers.getD k (0, 0)).1 - 1).toNat + i)
                (((centers.getD k (0, 0)).2 - 1).toNat + j) := by
  have hok : ∀ t ∈ seds.zip (morphs.zip centers),
      stepOk images.B images.N images.M t.1 t.2.1 t.2.2 = true := fun t ht => by
    obtain ⟨h1, h2, h3, h4, h5⟩ := hvalid t ht
    exact stepOk_of_valid h1 h2 h3 h4 h5
  obtain ⟨model, b, hrun, hmB, hmN, hmM, -⟩ :=
    render_go_spec images.B images.N images.M seds morphs centers
      (zeros (images.B, images.N, images.M)) none rfl rfl rfl hl1 hl2 hok
      (Or.inr (by intro h; rw [h] at hl2; simp at hl2; omega))
  have hgB : (grad_logL images model 1).B = images.B := hmB
  have hgN : (grad_logL images model 1).N = images.N := hmN
  have hgM : (grad_logL images model 1).M = images.M := hmM
  obtain ⟨sgs, mgs, hgrun, hind⟩ :=
    grad_go_spec (grad_logL images model 1) model centers seds morphs
      hl2.symm (by omega)
      (fun t ht => by
        obtain ⟨h1, h2, h3, h4, h5⟩ := hvalid t ht
        exact ⟨by rw [hgB]; exact h1, h2, h3, by rw [hgN]; exact h4,
          by rw [hgM]; exact h5⟩)
  have h2 := hind k hk
  rw [hgB] at h2
  refine ⟨model, b, sgs, mgs, hrun, ?_, h2.1, h2.2⟩
  simp only [calculate_gradients_direct, get_full_model]
  rw [hrun]
  simp only [grad_get_full_model]
  exact hgrun

/-- Witness for C1: one well-formed component in a `(1, 5, 5)` zero data
image. -/
theorem c1_witness :
    (([[(2 : ℚ)]] : List (List ℚ)).length = [onesM].length ∧
      ([[(2 : ℚ)]] : List (List ℚ)).length =
        ([((2 : ℤ), (2 : ℤ))] : List (ℤ × ℤ)).length ∧
      (∀ t ∈ ([[(2 : ℚ)]] : List (List ℚ)).zip
          ([onesM].zip [((2 : ℤ), (2 : ℤ))]),
        t.1.length = (zeros (1, 5, 5)).B ∧ t.2.1.N = 3 ∧ t.2.1.M = 3 ∧
          WindowInside (zeros (1, 5, 5)).N t.2.2.1 ∧
          WindowInside (zeros (1, 5, 5)).M t.2.2.2) ∧
      0 < ([((2 : ℤ), (2 : ℤ))] : List (ℤ × ℤ)).length) ∧
      (∃ model b sgs mgs,
        get_full_model [[(2 : ℚ)]] [onesM] [((2 : ℤ), (2 : ℤ))]
            ((zeros (1, 5, 5)).B, (zeros (1, 5, 5)).N, (zeros (1, 5, 5)).M) =
            some (model, b) ∧
          calculate_gradients_direct (zeros (1, 5, 5)) [((2 : ℤ), (2 : ℤ))]
              [[(2 : ℚ)]] [onesM] = some (sgs, mgs) ∧
          (∀ c, c < (zeros (1, 5, 5)).B →
            (sgs.getD 0 []).getD c 0 =
              ∑ i ∈ Finset.range 3, ∑ j ∈ Finset.range 3,
                (grad_logL (zeros (1, 5, 5)) model 1).val c
                    (((([((2 : ℤ), (2 : ℤ))] : List (ℤ × ℤ)).getD 0 (0, 0)).1 - 1).toNat + i)
                    (((([((2 : ℤ), (2 : ℤ))] : List (ℤ × ℤ)).getD 0 (0, 0)).2 - 1).toNat + j) *
                  (([onesM] : List Arr2).getD 0 arr2zero).val i j) ∧
          ∀ i j, (mgs.getD 0 arr2zero).val i j =
            ∑ c ∈ Finset.range (zeros (1, 5, 5)).B,
              (([[(2 : ℚ)]] : List (List ℚ)).getD 0 []).getD c 0 *
                (grad_logL (zeros (1, 5, 5)) model 1).val c
                  (((([((2 : ℤ), (2 : ℤ))] : List (ℤ × ℤ)).getD 0 (0, 0)).1 - 1).toNat + i)
                  (((([((2 : ℤ), (2 : ℤ))] : List (ℤ × ℤ)).getD 0 (0, 0)).2 - 1).toNat + j)) :=
  ⟨⟨rfl, rfl, by decide, by decide⟩,
    c1_direct_gradient_formulas (zeros (1, 5, 5)) [[(2 : ℚ)]] [onesM]
      [((2 : ℤ), (2 : ℤ))] 0 rfl rfl (by decide) (by decide)⟩

/-- A successful heap accumulation only rewrites the targeted entry. -/
theorem heapAddSlice_some {h : Heap} {id : ℕ} {b : Box} {src : Arr3}
    {h2 : Heap} (heq : heapAddSlice h id b src = some h2) :
    ∃ m, h2 = h.set id (NpVal.arr3 m) := by
  unfold heapAddSlice at heq
  cases h1 : heapArr3 h id with
  | none => simp [h1] at heq
  | some dest =>
    simp only [h1] at heq
    cases h3 : addSlice dest b src with
    | none => simp [h3] at heq
    | some m =>
      simp only [h3, Option.some.injEq] at heq
      exact ⟨m, heq.symm⟩

/-- The heap-level render loop writes only the model entry: a successful run
leaves every other heap entry unchanged. -/
theorem render_go_st_frame (modelId : ℕ) :
    ∀ (seds : List (List ℚ)) (morphs : List Arr2) (centers : List (ℤ × ℤ))
      (h : Heap) (lastBox : Option Box) (h2 : Heap) (b : Box),
      render_go_st h modelId lastBox seds morphs centers = some (h2, b) →
      ∀ j, j ≠ modelId → h2[j]? = h[j]? := by
  intro seds
  induction seds with
  | nil =>
    intro morphs centers h lastBox h2 b hrun j hj
    cases lastBox with
    | none => simp [render_go_st] at hrun
    | some b0 =>
      simp only [render_go_st, Option.map_some', Option.some.injEq,
        Prod.mk.injEq] at hrun
      rw [hrun.1]
  | cons sed seds ih =>
    intro morphs centers h lastBox h2 b hrun j hj
    match morphs, centers with
    | [], _ => simp [render_go_st] at hrun
    | _ :: _, [] => simp [render_go_st] at hrun
    | morph :: morphs, center :: centers =>
      simp only [render_go_st] at hrun
      cases hadd : heapAddSlice h modelId (get_component_model sed morph center).2
          (get_component_model sed morph center).1 with
      | none => rw [hadd] at hrun; simp at hrun
      | some h3 =>
        rw [hadd] at hrun
        obtain ⟨m, rfl⟩ := heapAddSlice_some hadd
        rw [ih morphs centers _ (some (boxOf center)) h2 b hrun j hj]
        exact List.getElem?_set_ne (fun hh => hj hh.symm)

/-- C9: components and data are immutable during direct gradient evaluation.
For every heap holding the four input arrays, a run of the heap-level
`calculate_gradients_direct` accumulates the model into a freshly allocated
zero array and leaves every pre-existing heap entry (images, centers, seds,
morphs) unchanged. -/
theorem c9_inputs_unchanged (h : Heap)
    (imagesId centersId sedsId morphsId : ℕ) (h2 : Heap)
    (g : List (List ℚ) × List Arr2)
    (heq : calculate_gradients_direct_st h imagesId centersId sedsId morphsId =
      some (h2, g)) :
    ∀ j, j < h.length → h2[j]? = h[j]? := by
  intro j hj
  unfold calculate_gradients_direct_st at heq
  cases e1 : heapArr3 h imagesId with
  | none => simp [e1] at heq
  | some images =>
  simp only [e1] at heq
  cases e2 : heapCenters h centersId with
  | none => simp [e2] at heq
  | some cs =>
  simp only [e2] at heq
  cases e3 : heapSeds h sedsId with
  | none => simp [e3] at heq
  | some ss =>
  simp only [e3] at heq
  cases e4 : heapMorphs h morphsId with
  | none => simp [e4] at heq
  | some ms =>
  simp only [e4] at heq
  cases e5 : render_go_st (h ++ [NpVal.arr3 (zeros (images.B, images.N, images.M))])
      h.length none ss ms cs with
  | none => simp [e5] at heq
  | some p =>
    obtain ⟨h3, b0⟩ := p
    simp only [e5] at heq
    cases e6 : heapArr3 h3 h.length with
    | none => simp [e6] at heq
    | some model =>
    simp only [e6] at heq
    cases e7 : grad_get_full_model (grad_logL images model 1) model cs ss ms with
    | none => simp [e7] at heq
    | some g0 =>
      simp only [e7, Option.some.injEq, Prod.mk.injEq] at heq
      rw [← heq.1]
      rw [render_go_st_frame h.length ss ms cs _ none h3 b0 e5 j (by omega)]
      rw [List.getElem?_append]
      simp [hj]

/-- Witness for C9: a concrete successful run on `exHeap`, whose data image
at heap index 0 is unchanged. -/
theorem c9_witness :
    ∃ h2 g, calculate_gradients_direct_st exHeap 0 1 2 3 = some (h2, g) ∧
      (0 < exHeap.length ∧ h2[0]? = exHeap[0]?) := by
  have hs : (calculate_gradients_direct_st exHeap 0 1 2 3).isSome = true := rfl
  obtain ⟨p, hp⟩ := Option.isSome_iff_exists.mp hs
  exact ⟨p.1, p.2, hp, by decide,
    c9_inputs_unchanged exHeap 0 1 2 3 p.1 p.2 hp 0 (by decide)⟩

end DirectConv
